import Mathlib

/-!
Verification development for the document-structure extractor
(`pdf_extractor.py` and `heading_detector.py`).

Shallow embedding conventions:
* Python floats are modelled as `ℚ` (all constants in the source are decimal
  literals, and font sizes are rounded to 0.1pt, so arithmetic is exact).
* Python strings are modelled as `List Char`; the ASCII-level behaviour of
  `str.isupper`, `str.lower`, `\d`, `\w`, `\s` is modelled with `Char.isUpper`,
  `Char.toLower`, `Char.isDigit`, alphanumeric/underscore and
  `Char.isWhitespace` respectively.
* Python's stable `list.sort` is modelled by a stable insertion sort
  (`sortStable`); a stable sort is extensionally unique, so this is a faithful
  model of Timsort restricted to the comparators used here.
* Dictionary element records are modelled by the structure `Elem` when all
  keys are present.  The partial-record model `PElem` (optional keys as
  `Option`, scoring in the `Option` monad, `none` = a raised `KeyError` /
  `IndexError`) captures the source's `element['k']` versus
  `element.get('k', default)` distinction.
-/

/-! ### Character and list-of-character helpers -/

/-- Lower-case a string, modelling `str.lower()`. -/
def lowerL (l : List Char) : List Char := l.map Char.toLower

/-- Membership of the Python character class `\w` (word character). -/
def isWordChar (c : Char) : Bool := c.isAlphanum || c = '_'

/-- Whether `pre` occurs at the start of `l`. -/
def startsWith : List Char → List Char → Bool
  | [], _ => true
  | _ :: _, [] => false
  | p :: ps, c :: cs => p = c && startsWith ps cs

/-- Whether `sub` occurs contiguously anywhere in the second list,
modelling Python's `sub in text`. -/
def containsSub (sub : List Char) : List Char → Bool
  | [] => startsWith sub []
  | c :: cs => startsWith sub (c :: cs) || containsSub sub cs

/-- Strip leading and trailing whitespace, modelling `str.strip()`. -/
def stripWS (l : List Char) : List Char :=
  ((l.dropWhile Char.isWhitespace).reverse.dropWhile Char.isWhitespace).reverse

/-- Count of the maximal non-whitespace runs in a string, i.e.
`len(text.split())` for Python's no-argument `split`.  The flag records
whether the previous character was part of a word. -/
def countWordsAux : Bool → List Char → Nat
  | _, [] => 0
  | inw, c :: t =>
    if c.isWhitespace then countWordsAux false t
    else (if inw then 0 else 1) + countWordsAux true t

/-- Number of words of a string, `len(text.split())`. -/
def countWords (l : List Char) : Nat := countWordsAux false l

/-- A character is cased (for the ASCII model of Python's case predicates)
iff it is a letter. -/
def isCasedChar (c : Char) : Bool := c.isAlpha

/-- Model of `str.islower()`: at least one cased character, and every cased
character is lower case. -/
def pyIsLower (l : List Char) : Bool :=
  l.any isCasedChar && l.all (fun c => !isCasedChar c || c.isLower)

/-- Model of `str.isupper()`: at least one cased character, and every cased
character is upper case. -/
def pyIsUpper (l : List Char) : Bool :=
  l.any isCasedChar && l.all (fun c => !isCasedChar c || c.isUpper)

/-- Model of `str.title()`: the first cased character of each cased run is
upper-cased, subsequent ones lower-cased.  The flag is true when the previous
character was cased. -/
def pyTitleAux : Bool → List Char → List Char
  | _, [] => []
  | prev, c :: t =>
    if isCasedChar c then
      (if prev then c.toLower else c.toUpper) :: pyTitleAux true t
    else c :: pyTitleAux false t

/-- Model of `str.title()`. -/
def pyTitle (l : List Char) : List Char := pyTitleAux false l

/-! ### Stable sorting

Python's `list.sort(key=...)` is a stable sort.  A stable sort is uniquely
determined by its (total preorder) comparator, so the structurally recursive
insertion sort below is a faithful model. -/

/-- Insert `a` into `l` before the first element `b` with `le a b`. -/
def insSorted (le : α → α → Bool) (a : α) : List α → List α
  | [] => [a]
  | b :: t => if le a b then a :: b :: t else b :: insSorted le a t

/-- Stable insertion sort: of two elements with equivalent keys the one
earlier in the input stays first, as in Python's `list.sort`. -/
def sortStable (le : α → α → Bool) (l : List α) : List α :=
  l.foldr (insSorted le) []

/-! ### Regular-expression models

Each `matches…` function models one regex from `SmartHeadingDetector`
via `re.match` (anchored at the start only).  In every pattern the repeated
character class is disjoint from the character that follows it, so greedy
matching without backtracking is equivalent to the regex semantics. -/

/-- Consume one or more characters satisfying `p`; `none` if there is none. -/
def chompMany1 (p : Char → Bool) : List Char → Option (List Char)
  | [] => none
  | c :: t => if p c then some (t.dropWhile p) else none

/-- Consume an optional single character `c`. -/
def chompOpt (c : Char) : List Char → List Char
  | [] => []
  | x :: t => if x = c then t else x :: t

/-- Require the single character `c` next. -/
def expectChar (c : Char) : List Char → Option (List Char)
  | [] => none
  | x :: t => if x = c then some t else none

/-- Whether the list begins with one or more whitespace characters (`\s+`). -/
def wsNext (l : List Char) : Bool := (chompMany1 Char.isWhitespace l).isSome

/-- Regex `^\d+\.?\s+`. -/
def matchesNumDot (l : List Char) : Bool :=
  match chompMany1 Char.isDigit l with
  | none => false
  | some r => wsNext (chompOpt '.' r)

/-- Regex `^\d+\.\d+\.?\s+`. -/
def matchesNumNum (l : List Char) : Bool :=
  match chompMany1 Char.isDigit l with
  | none => false
  | some r =>
    match expectChar '.' r with
    | none => false
    | some r2 =>
      match chompMany1 Char.isDigit r2 with
      | none => false
      | some r3 => wsNext (chompOpt '.' r3)

/-- Regex `^\d+\.\d+\.\d+\.?\s+`. -/
def matchesNumNumNum (l : List Char) : Bool :=
  match chompMany1 Char.isDigit l with
  | none => false
  | some r =>
    match expectChar '.' r with
    | none => false
    | some r2 =>
      match chompMany1 Char.isDigit r2 with
      | none => false
      | some r3 =>
        match expectChar '.' r3 with
        | none => false
        | some r4 =>
          match chompMany1 Char.isDigit r4 with
          | none => false
          | some r5 => wsNext (chompOpt '.' r5)

/-- Regex `^[A-Z]+\.?\s+`. -/
def matchesCaps (l : List Char) : Bool :=
  match chompMany1 (fun c => 'A' ≤ c && c ≤ 'Z') l with
  | none => false
  | some r => wsNext (chompOpt '.' r)

/-- Regex `^[IVX]+\.?\s+`. -/
def matchesRoman (l : List Char) : Bool :=
  match chompMany1 (fun c => c = 'I' || c = 'V' || c = 'X') l with
  | none => false
  | some r => wsNext (chompOpt '.' r)

/-- Regex `^[a-z]\)?\s+`. -/
def matchesLetterMark (l : List Char) : Bool :=
  match l with
  | [] => false
  | c :: t => ('a' ≤ c && c ≤ 'z') && wsNext (chompOpt ')' t)

/-- Regex `^\([a-z]\)\s+`. -/
def matchesParenLetter (l : List Char) : Bool :=
  match expectChar '(' l with
  | none => false
  | some r =>
    match r with
    | [] => false
    | c :: t =>
      ('a' ≤ c && c ≤ 'z') &&
        (match expectChar ')' t with
         | none => false
         | some r2 => wsNext r2)

/-- Regex `^\([0-9]\)\s+`. -/
def matchesParenDigit (l : List Char) : Bool :=
  match expectChar '(' l with
  | none => false
  | some r =>
    match r with
    | [] => false
    | c :: t =>
      c.isDigit &&
        (match expectChar ')' t with
         | none => false
         | some r2 => wsNext r2)

/-- Any of the eight `heading_patterns` of `SmartHeadingDetector.__init__`. -/
def headingPatternHit (l : List Char) : Bool :=
  matchesNumDot l || matchesNumNum l || matchesNumNumNum l || matchesCaps l ||
  matchesRoman l || matchesLetterMark l || matchesParenLetter l || matchesParenDigit l

/-- Chinese numerals appearing in the CJK patterns. -/
def cjkNumerals : List Char := "一二三四五六七八九十".data

/-- Full-width digits appearing in the CJK patterns. -/
def fullWidthDigits : List Char := "１２３４５６７８９０".data

/-- Regex `^第[一二三四五六七八九十\d]+X` for a final character `last`. -/
def matchesDaiX (last : Char) (l : List Char) : Bool :=
  match expectChar '第' l with
  | none => false
  | some r =>
    match chompMany1 (fun c => c ∈ cjkNumerals || c.isDigit) r with
    | none => false
    | some r2 => (expectChar last r2).isSome

/-- Regex `^[１２３４５６７８９０]+[．。]\s*` (the `\s*` always succeeds). -/
def matchesFullWidth (l : List Char) : Bool :=
  match chompMany1 (fun c => c ∈ fullWidthDigits) l with
  | none => false
  | some r =>
    match r with
    | [] => false
    | c :: _ => c = '．' || c = '。'

/-- Regex `^[一二三四五六七八九十]+[、．。]\s*`. -/
def matchesCjkNumeral (l : List Char) : Bool :=
  match chompMany1 (fun c => c ∈ cjkNumerals) l with
  | none => false
  | some r =>
    match r with
    | [] => false
    | c :: _ => c = '、' || c = '．' || c = '。'

/-- Any of the five `cjk_patterns` of `SmartHeadingDetector.__init__`. -/
def cjkPatternHit (l : List Char) : Bool :=
  matchesDaiX '章' l || matchesDaiX '節' l || matchesDaiX '条' l ||
  matchesFullWidth l || matchesCjkNumeral l

/-! ### Keyword tables (`SmartHeadingDetector.__init__`) -/

/-- Model of `title_keywords['latin']`. -/
def titleKeywordsLatin : List (List Char) :=
  ["title".data, "chapter".data, "part".data, "section".data, "introduction".data,
   "abstract".data, "summary".data, "overview".data, "contents".data, "index".data]

/-- Model of `title_keywords['cjk']`. -/
def titleKeywordsCjk : List (List Char) :=
  ["タイトル".data, "題目".data, "標題".data, "章".data, "部".data, "節".data,
   "概要".data, "要約".data, "目次".data, "索引".data, "标题".data, "章节".data,
   "摘要".data]

/-- Model of `self.title_keywords.get(language_type, self.title_keywords['latin'])`:
only the key `'cjk'` selects the CJK list (there is no `'japanese'` or
`'chinese'` key, so those fall back to the Latin list). -/
def keywordsFor (language_type : String) : List (List Char) :=
  if language_type = "cjk" then titleKeywordsCjk else titleKeywordsLatin

/-- Model of `exclude_keywords`: words unlikely to be headings. -/
def excludeKeywords : List (List Char) :=
  ["page".data, "figure".data, "table".data, "appendix".data, "reference".data,
   "bibliography".data, "footnote".data, "header".data, "footer".data,
   "copyright".data, "rights".data, "reserved".data]

/-! ### Font hierarchy (the `font_analysis['hierarchy']` dictionary)

`analyze_font_distribution` returns either the empty dictionary `{}` (when no
element reaches the minimum font size) or a dictionary with all four keys, so
the model is a record of four optional thresholds.  Lookups mirror
`h.get(key, default)`. -/

/-- The font-hierarchy dictionary: optional per-level thresholds. -/
structure Hier where
  titleQ : Option ℚ
  h1Q : Option ℚ
  h2Q : Option ℚ
  h3Q : Option ℚ
  deriving DecidableEq

/-- Model of `hierarchy.get('title', 16)`. -/
def Hier.getTitle (h : Hier) : ℚ := h.titleQ.getD 16

/-- Model of `hierarchy.get('H1', 14)`. -/
def Hier.getH1 (h : Hier) : ℚ := h.h1Q.getD 14

/-- Model of `hierarchy.get('H2', 12)`. -/
def Hier.getH2 (h : Hier) : ℚ := h.h2Q.getD 12

/-- Model of `hierarchy.get('H3', 10)`. -/
def Hier.getH3 (h : Hier) : ℚ := h.h3Q.getD 10

/-- Truthiness test of the hierarchy dictionary (`not self.font_hierarchy`):
true iff the dictionary is empty.  The source only ever builds the empty
dictionary or one with all four keys. -/
def Hier.isEmptyH (h : Hier) : Bool :=
  h.titleQ.isNone && h.h1Q.isNone && h.h2Q.isNone && h.h3Q.isNone

/-- The `{}` returned by `analyze_font_distribution` on noise-only input. -/
def emptyHier : Hier := ⟨none, none, none, none⟩

/-- The fallback `{'title': 16, 'H1': 14, 'H2': 12, 'H3': 10}` of
`_create_font_hierarchy`. -/
def fallbackHier : Hier := ⟨some 16, some 14, some 12, some 10⟩

/-! ### Text elements

`Elem` is a text-element record with every key the detector reads present.
Field order: text, size, page, y position, bold flag, left-aligned flag,
centered flag, starts-with-number flag, language type. -/

/-- A text element with all keys present. -/
structure Elem where
  text : List Char
  size : ℚ
  page : Nat
  y_pos : ℚ
  is_bold : Bool
  is_left_aligned : Bool
  is_centered : Bool
  starts_with_number : Bool
  language_type : String
  deriving DecidableEq

/-! ### Confidence scoring (`_calculate_heading_confidence` and helpers) -/

/-- The fallback banding of `_calculate_size_score` used when the hierarchy
is absent or empty. -/
def fallbackSizeScore (s : ℚ) : ℚ :=
  if 16 ≤ s then 1 else if 14 ≤ s then 4/5 else if 12 ≤ s then 3/5 else 3/10

/-- Model of `_calculate_size_score`.  The `Option Hier` argument models the
`font_hierarchy` attribute, `none` when `hasattr` fails. -/
def calcSizeScore (fh : Option Hier) (s : ℚ) : ℚ :=
  match fh with
  | none => fallbackSizeScore s
  | some h =>
    if h.isEmptyH then fallbackSizeScore s
    else if h.getTitle ≤ s then 1
    else if h.getH1 ≤ s then 4/5
    else if h.getH2 ≤ s then 3/5
    else if h.getH3 ≤ s then 2/5
    else 1/5

/-- Model of `_calculate_position_score`: left-aligned, centered and top-of-page
bonuses. -/
def calcPositionScore (e : Elem) : ℚ :=
  (if e.is_left_aligned then 2/5 else 0) +
  (if e.is_centered then 3/10 else 0) +
  (if e.y_pos < 150 then 3/10 else 0)

/-- Model of `_calculate_pattern_score`.  The final branch indexes `text_clean[0]`;
on a whitespace-only text Python would raise `IndexError` there, which the
total model maps to the score 0 (the partial model `calcPatternScoreP`
below reports the exception faithfully). -/
def calcPatternScore (language_type : String) (text : List Char) : ℚ :=
  let tc := stripWS text
  if headingPatternHit tc then 4/5
  else if (language_type = "japanese" || language_type = "chinese" ||
      language_type = "cjk") && cjkPatternHit tc then 4/5
  else if (keywordsFor language_type).any (fun kw => containsSub kw (lowerL tc)) then 3/5
  else if pyIsUpper tc && 2 < tc.length then 2/5
  else
    match tc with
    | [] => 0
    | c :: _ =>
      if c.isUpper && countWords tc ≤ 8 && tc.getLast? ≠ some '.' then 3/10 else 0

/-- Model of `_calculate_length_score`. -/
def calcLengthScore (text : List Char) : ℚ :=
  let cc := text.length
  let wc := countWords text
  if 5 ≤ cc ∧ cc ≤ 50 ∧ 1 ≤ wc ∧ wc ≤ 8 then 1
  else if 3 ≤ cc ∧ cc ≤ 100 ∧ 1 ≤ wc ∧ wc ≤ 12 then 7/10
  else if cc ≤ 150 then 2/5
  else 1/10

/-- Model of `_calculate_special_score`: noise-keyword penalty (applied at most once
because of the `break`), numeric-indicator bonus, early-page bonus and
late-page penalty. -/
def calcSpecialScore (e : Elem) : ℚ :=
  (if excludeKeywords.any (fun kw => containsSub kw (lowerL e.text)) then -(1/2) else 0) +
  (if e.starts_with_number then 3/10 else 0) +
  (if e.page ≤ 3 then 1/5 else 0) +
  (if 20 < e.page then -(1/10) else 0)

/-- Model of `_calculate_heading_confidence`: the weighted sum of the six signals,
capped above by `min(confidence, 1.0)`. -/
def calcHeadingConfidence (fh : Option Hier) (e : Elem) : ℚ :=
  min (calcSizeScore fh e.size * (3/10) +
       (if e.is_bold then 3/20 else 0) +
       calcPositionScore e * (1/5) +
       calcPatternScore e.language_type e.text * (1/5) +
       calcLengthScore e.text * (1/10) +
       calcSpecialScore e * (1/20)) 1

/-! ### Font-distribution analysis (`AdvancedPDFExtractor`) -/

/-- All elements of the document in page order (`pages_data` flattened). -/
def docElements (pages : List (List Elem)) : List Elem := pages.flatten

/-- The elements whose size passes the `font_size_threshold` of 8.0pt
(the `font_sizes` / `size_to_elements` collection loop). -/
def qualifying (pages : List (List Elem)) : List Elem :=
  (docElements pages).filter (fun e => decide ((8 : ℚ) ≤ e.size))

/-- First-occurrence deduplication (the effect of building a `set`). -/
def dedupFirst : List ℚ → List ℚ
  | [] => []
  | a :: t => a :: (dedupFirst t).filter (fun b => decide (b ≠ a))

/-- Model of `sorted(set(font_sizes), reverse=True)`: the distinct qualifying sizes
in descending order. -/
def uniqueSizesDesc (pages : List (List Elem)) : List ℚ :=
  sortStable (fun a b => decide (b ≤ a)) (dedupFirst ((qualifying pages).map (·.size)))

/-- Model of `font_size_counts[s]`. -/
def countSize (pages : List (List Elem)) (s : ℚ) : Nat :=
  (qualifying pages).countP (fun e => decide (e.size = s))

/-- Model of `sum(counts.values())`: one count was added per qualifying element, so
this is the number of qualifying elements. -/
def totalCount (pages : List (List Elem)) : Nat := (qualifying pages).length

/-- Model of `max(sizes)` with the source's `if sizes else 0` guard. -/
def maxOfSizes (sizes : List ℚ) : ℚ :=
  match sizes with
  | [] => 0
  | h :: t => t.foldl max h

/-- One font-size cluster of `_create_font_clusters`.  Field order: size,
count, rank, frequency score, size score, importance. -/
structure Cluster where
  size : ℚ
  count : Nat
  rank : Nat
  frequency_score : ℚ
  size_score : ℚ
  importance : ℚ
  deriving DecidableEq

/-- Model of `_create_font_clusters` applied to the document's distinct sizes:
`importance = 0.7 * size_score + 0.3 * frequency_score`. -/
def makeClusters (pages : List (List Elem)) : List Cluster :=
  let sizes := uniqueSizesDesc pages
  sizes.enum.map (fun p =>
    let fs : ℚ := (countSize pages p.2 : ℚ) / (totalCount pages : ℚ)
    let ss : ℚ := p.2 / maxOfSizes sizes
    ⟨p.2, countSize pages p.2, p.1 + 1, fs, ss, ss * (7/10) + fs * (3/10)⟩)

/-- Model of `sorted(clusters, key=lambda x: x['importance'], reverse=True)`:
stable, descending by importance. -/
def sortedClusters (pages : List (List Elem)) : List Cluster :=
  sortStable (fun a b => decide (b.importance ≤ a.importance)) (makeClusters pages)

/-- Number of elements of this size on pages 1-2
(`[e for e in size_to_elements[size] if e['page'] <= 2]`). -/
def earlyCount (pages : List (List Elem)) (s : ℚ) : Nat :=
  (qualifying pages).countP (fun e => decide (e.size = s ∧ e.page ≤ 2))

/-- The title-size selection of `_create_font_hierarchy`: among the top three
clusters by importance, those with early-page occurrences, keeping the one
with the most such occurrences (Python's `max` keeps the first maximiser);
if none, the most important cluster's size. -/
def titleSizeOf (pages : List (List Elem)) : ℚ :=
  let sc := sortedClusters pages
  let tcands := (sc.take 3).filterMap (fun c =>
    if earlyCount pages c.size ≠ 0 then some (c.size, earlyCount pages c.size) else none)
  match tcands with
  | [] => ((sc.headD ⟨0, 0, 0, 0, 0, 0⟩).size)
  | t :: ts => (ts.foldl (fun acc p => if acc.2 < p.2 then p else acc) t).1

/-- The non-title sizes in the order of the importance-sorted cluster list
(`[c['size'] for c in sorted_clusters if c['size'] != hierarchy['title']]`). -/
def remainingSizes (pages : List (List Elem)) : List ℚ :=
  ((sortedClusters pages).filter (fun c => decide (c.size ≠ titleSizeOf pages))).map (·.size)

/-- Model of `_create_font_hierarchy`: the fallback on an empty cluster list, then the
title size and the remaining-level assignment with its synthesis cases. -/
def buildHierarchy (pages : List (List Elem)) : Hier :=
  if makeClusters pages = [] then fallbackHier
  else
    let t := titleSizeOf pages
    match remainingSizes pages with
    | r0 :: r1 :: r2 :: _ => ⟨some t, some r0, some r1, some r2⟩
    | [r0, r1] => ⟨some t, some r0, some r1, some (r1 - 1)⟩
    | [r0] => ⟨some t, some r0, some (r0 - 1), some (r0 - 2)⟩
    | [] => ⟨some t, some (t - 2), some (t - 2 - 1), some (t - 2 - 2)⟩

/-- The `hierarchy` component of `analyze_font_distribution`: the empty
dictionary when no element passes the size threshold, otherwise the built
hierarchy. -/
def hierOf (pages : List (List Elem)) : Hier :=
  if qualifying pages = [] then emptyHier else buildHierarchy pages

/-! ### Candidate selection and classification (`SmartHeadingDetector`) -/

/-- A potential heading: the element together with its attached confidence
(`heading_info['confidence']`). -/
structure Cand where
  el : Elem
  confidence : ℚ
  deriving DecidableEq

/-- The sort comparator of `_find_potential_headings`: ascending in
`(page, -confidence, y_pos)`. -/
def candLE (a b : Cand) : Bool :=
  decide (a.el.page < b.el.page ∨ (a.el.page = b.el.page ∧
    (b.confidence < a.confidence ∨ (a.confidence = b.confidence ∧ a.el.y_pos ≤ b.el.y_pos))))

/-- Model of `_find_potential_headings`: keep elements with confidence at least the
0.4 minimum, then sort by `(page, -confidence, y_pos)`. -/
def findPotentialHeadings (fh : Hier) (pages : List (List Elem)) : List Cand :=
  sortStable candLE ((docElements pages).filterMap (fun e =>
    let c := calcHeadingConfidence (some fh) e
    if (2/5 : ℚ) ≤ c then some ⟨e, c⟩ else none))

/-- A heading level. -/
inductive Level where
  | title
  | H1
  | H2
  | H3
  deriving DecidableEq

/-- A classified heading (`heading_result`).  Field order: level, text,
page, confidence, font size. -/
structure Classified where
  level : Level
  text : List Char
  page : Nat
  confidence : ℚ
  font_size : ℚ
  deriving DecidableEq

/-- Model of `_classify_heading_level`: the title rule (guarded by `title_found`),
the three size rules, the numbering-pattern fallback, or no level.  When the
outer title conditions hold but the word-count/noise check fails, control
falls through to the size rules, hence the single conjoined condition. -/
def classifyHeadingLevel (fh : Hier) (title_found : Bool) (c : Cand) : Option Level :=
  if title_found = false ∧ c.el.page ≤ 2 ∧ (3/5 : ℚ) ≤ c.confidence ∧
      fh.getTitle - 1 ≤ c.el.size ∧ countWords c.el.text ≤ 10 ∧
      (excludeKeywords.any (fun kw => containsSub kw (lowerL c.el.text))) = false then
    some Level.title
  else if fh.getH1 - 1/2 ≤ c.el.size then some Level.H1
  else if fh.getH2 - 1/2 ≤ c.el.size then some Level.H2
  else if fh.getH3 - 1/2 ≤ c.el.size then some Level.H3
  else if matchesNumDot c.el.text then some Level.H1
  else if matchesNumNum c.el.text then some Level.H2
  else if matchesNumNumNum c.el.text then some Level.H3
  else none

/-- Model of `_classify_headings`: one pass over the sorted candidates, setting
`title_found` as soon as a title is assigned. -/
def classifyHeadings (fh : Hier) : Bool → List Cand → List Classified
  | _, [] => []
  | tf, c :: cs =>
    match classifyHeadingLevel fh tf c with
    | none => classifyHeadings fh tf cs
    | some lv =>
      ⟨lv, c.el.text, c.el.page, c.confidence, c.el.size⟩ ::
        classifyHeadings fh (tf || decide (lv = Level.title)) cs

/-! ### Outline post-processing (`_post_process_outline`, `_clean_heading_text`) -/

/-- Membership of the leading character class `[\d\.\s\-\)\(]` stripped by
`_clean_heading_text`. -/
def leadClass (c : Char) : Bool :=
  c.isDigit || c = '.' || c.isWhitespace || c = '-' || c = ')' || c = '('

/-- Membership of the trailing class `[^\w\s\.\!\?]` stripped at the end. -/
def trailBad (c : Char) : Bool :=
  !(isWordChar c || c.isWhitespace || c = '.' || c = '!' || c = '?')

/-- Strip the trailing run of `trailBad` characters
(`re.sub(r'[^\w\s\.\!\?]+$', '', text)`). -/
def dropTrail (l : List Char) : List Char :=
  (l.reverse.dropWhile trailBad).reverse

/-- Replace every whitespace character by a plain space (first half of
`re.sub(r'\s+', ' ', text)`). -/
def wsToSpace (l : List Char) : List Char :=
  l.map (fun c => if c.isWhitespace then ' ' else c)

/-- Collapse adjacent spaces to one (second half of `re.sub(r'\s+', ' ', …)`;
after `wsToSpace` every whitespace run is a run of spaces). -/
def dedupSp : List Char → List Char
  | [] => []
  | [c] => [c]
  | a :: b :: t =>
    if a = ' ' && b = ' ' then dedupSp (b :: t) else a :: dedupSp (b :: t)

/-- Model of `_clean_heading_text`: strip the leading numeral/punctuation run, strip
trailing punctuation other than `. ! ?`, collapse whitespace and strip, and
title-case a fully lower- or fully upper-case result. -/
def cleanText (l : List Char) : List Char :=
  let t1 := l.dropWhile leadClass
  let t2 := dropTrail t1
  let t3 := stripWS (dedupSp (wsToSpace t2))
  if pyIsLower t3 || pyIsUpper t3 then pyTitle t3 else t3

/-- Model of `_get_level_priority`. -/
def levelPriority (lv : Level) : Nat :=
  match lv with
  | Level.H1 => 1
  | Level.H2 => 2
  | Level.H3 => 3
  | Level.title => 4

/-- An outline entry as read and written by `_post_process_outline`: only
the level, text and page keys.  Field order: level, text, page. -/
structure PostEntry where
  level : Level
  text : List Char
  page : Nat
  deriving DecidableEq

/-- Forgetting the confidence and font size of a classified heading. -/
def toEntry (c : Classified) : PostEntry := ⟨c.level, c.text, c.page⟩

/-- The final sort comparator of `_post_process_outline`: ascending in
`(page, level priority)`. -/
def postLE (a b : PostEntry) : Bool :=
  decide (a.page < b.page ∨ (a.page = b.page ∧
    levelPriority a.level ≤ levelPriority b.level))

/-- The deduplication loop of `_post_process_outline`: clean each text, keep
it when its lower-cased form is unseen and its length exceeds 2, and record
the lower-cased form in `seen_texts`. -/
def dedupPass (seen : List (List Char)) : List PostEntry → List PostEntry
  | [] => []
  | h :: t =>
    let tc := cleanText h.text
    if lowerL tc ∉ seen ∧ 2 < tc.length then
      ⟨h.level, tc, h.page⟩ :: dedupPass (lowerL tc :: seen) t
    else dedupPass seen t

/-- Model of `_post_process_outline`: drop title entries, clean/deduplicate, and sort
by page then level priority. -/
def postProcessOutline (hs : List PostEntry) : List PostEntry :=
  if hs = [] then []
  else sortStable postLE (dedupPass [] (hs.filter (fun h => decide (h.level ≠ Level.title))))

/-! ### Title resolution (`find_document_title`) -/

/-- A collected title candidate.  Field order: text, confidence, size,
page. -/
structure TCand where
  text : List Char
  confidence : ℚ
  size : ℚ
  page : Nat
  deriving DecidableEq

/-- The candidate sort comparator: `key=(confidence, size), reverse=True`,
stable and descending. -/
def tcandLE (a b : TCand) : Bool :=
  decide (b.confidence < a.confidence ∨
    (a.confidence = b.confidence ∧ b.size ≤ a.size))

/-- The candidate-collection loop of `find_document_title` over the elements
of the first two pages.  The hierarchy state is `none` when the
`font_hierarchy` attribute has never been set; the threshold comparison then
raises `AttributeError` (modelled by `none`), but only when it is reached,
i.e. only for an element whose confidence is at least 0.6 (Python's `and`
short-circuits). -/
def collectTitleCands (st : Option Hier) : List Elem → Option (List TCand)
  | [] => some []
  | e :: es =>
    let c := calcHeadingConfidence st e
    if (3/5 : ℚ) ≤ c then
      match st with
      | none => none
      | some h =>
        match collectTitleCands st es with
        | none => none
        | some rest =>
          some (if h.getTitle - 2 ≤ e.size then TCand.mk e.text c e.size e.page :: rest
                else rest)
    else collectTitleCands st es

/-- The literal placeholder `"Untitled Document"`. -/
def untitled : List Char := "Untitled Document".data

/-- Python's `max(elems, key=lambda x: x['size'])`: the first element of
maximal size. -/
def firstMaxBySize (e : Elem) (es : List Elem) : Elem :=
  es.foldl (fun acc x => if acc.size < x.size then x else acc) e

/-- Model of `find_document_title`, with the hierarchy attribute as explicit state:
scan pages 1-2 for candidates, pick the best by `(confidence, size)`, fall
back to the largest element of page 1, or the placeholder. -/
def findTitleSt (st : Option Hier) (pages : List (List Elem)) : Option (List Char) :=
  if pages = [] then some untitled
  else
    match collectTitleCands st ((pages.take 2).flatten) with
    | none => none
    | some tcands =>
      match sortStable tcandLE tcands with
      | best :: _ => some (cleanText best.text)
      | [] =>
        match pages.headD [] with
        | [] => some untitled
        | e :: es => some (cleanText (firstMaxBySize e es).text)

/-! ### Per-document analysis (`analyze_document_structure` and the driver)

The `font_hierarchy` attribute of the long-lived detector object is threaded
as explicit state (`none` before it is first assigned). -/

/-- Model of `analyze_document_structure`: returns the empty outline unchanged on an
empty page list (before the hierarchy attribute is assigned), otherwise
assigns the hierarchy attribute and runs the candidate, classification and
post-processing passes. -/
def analyzeDocumentStructure (st : Option Hier) (pages : List (List Elem)) :
    Option Hier × List PostEntry :=
  if pages = [] then (st, [])
  else
    let h := hierOf pages
    (some h,
     postProcessOutline ((classifyHeadings h false (findPotentialHeadings h pages)).map toEntry))

/-- One document processed as by `PDFProcessor.process_single_pdf`:
`analyze_document_structure` followed by `find_document_title` on the same
detector object. -/
def runDocument (st : Option Hier) (pages : List (List Elem)) :
    Option Hier × (List PostEntry × Option (List Char)) :=
  let r := analyzeDocumentStructure st pages
  (r.1, (r.2, findTitleSt r.1 pages))

/-! ### The partial-record scoring model (`PElem`)

`PElem` is an element record in which the keys read with a bare
`element['k']` subscript may be absent.  Scoring returns `none` exactly when
Python raises: a `KeyError` on a missing `y_pos` or `page`, or the
`IndexError` of `text_clean[0]` on a whitespace-only text. -/

/-- An element record with optional keys.  Field order: text, size, then the
optional y position, page, bold flag, left-aligned flag, centered flag,
starts-with-number flag and language type. -/
structure PElem where
  text : List Char
  size : ℚ
  y_posQ : Option ℚ
  pageQ : Option Nat
  is_boldQ : Option Bool
  is_left_alignedQ : Option Bool
  is_centeredQ : Option Bool
  starts_with_numberQ : Option Bool
  language_typeQ : Option String
  deriving DecidableEq

/-- Model of `_calculate_position_score` on a partial record: the alignment flags are
read with `.get(..., False)` but `element['y_pos']` is a bare subscript. -/
def calcPositionScoreP (e : PElem) : Option ℚ :=
  match e.y_posQ with
  | none => none
  | some y =>
    some ((if e.is_left_alignedQ.getD false then 2/5 else 0) +
          (if e.is_centeredQ.getD false then 3/10 else 0) +
          (if y < 150 then 3/10 else 0))

/-- Model of `_calculate_pattern_score` on a partial record: `text_clean[0]` raises
`IndexError` when the stripped text is empty. -/
def calcPatternScoreP (language_type : String) (text : List Char) : Option ℚ :=
  let tc := stripWS text
  if headingPatternHit tc then some (4/5)
  else if (language_type = "japanese" || language_type = "chinese" ||
      language_type = "cjk") && cjkPatternHit tc then some (4/5)
  else if (keywordsFor language_type).any (fun kw => containsSub kw (lowerL tc)) then
    some (3/5)
  else if pyIsUpper tc && 2 < tc.length then some (2/5)
  else
    match tc with
    | [] => none
    | c :: _ =>
      some (if c.isUpper && countWords tc ≤ 8 && tc.getLast? ≠ some '.' then 3/10 else 0)

/-- Model of `_calculate_special_score` on a partial record: `element['page']` is a
bare subscript, `starts_with_number` is read with `.get(..., False)`. -/
def calcSpecialScoreP (e : PElem) : Option ℚ :=
  match e.pageQ with
  | none => none
  | some p =>
    some ((if excludeKeywords.any (fun kw => containsSub kw (lowerL e.text)) then -(1/2) else 0) +
          (if e.starts_with_numberQ.getD false then 3/10 else 0) +
          (if p ≤ 3 then 1/5 else 0) +
          (if 20 < p then -(1/10) else 0))

/-- Model of `_calculate_heading_confidence` on a partial record: `is_bold` and
`language_type` are read with `.get`; the position, pattern and special terms
propagate a raised exception. -/
def calcHeadingConfidenceP (fh : Option Hier) (e : PElem) : Option ℚ :=
  match calcPositionScoreP e with
  | none => none
  | some pos =>
    match calcPatternScoreP (e.language_typeQ.getD "latin") e.text with
    | none => none
    | some pat =>
      match calcSpecialScoreP e with
      | none => none
      | some sp =>
        some (min (calcSizeScore fh e.size * (3/10) +
                   (if e.is_boldQ.getD false then 3/20 else 0) +
                   pos * (1/5) + pat * (1/5) +
                   calcLengthScore e.text * (1/10) + sp * (1/20)) 1)

/-! ### Properties of the stable insertion sort -/

theorem insSorted_perm (le : α → α → Bool) (a : α) (l : List α) :
    (insSorted le a l).Perm (a :: l) := by
  induction l with
  | nil => exact List.Perm.refl _
  | cons b t ih =>
    rw [insSorted]
    split
    · exact List.Perm.refl _
    · exact (List.Perm.cons b ih).trans (List.Perm.swap a b t)

theorem sortStable_perm (le : α → α → Bool) (l : List α) :
    (sortStable le l).Perm l := by
  induction l with
  | nil => exact List.Perm.refl _
  | cons a t ih => exact (insSorted_perm le a (sortStable le t)).trans (List.Perm.cons a ih)

theorem mem_sortStable {le : α → α → Bool} {l : List α} {x : α} :
    x ∈ sortStable le l ↔ x ∈ l :=
  (sortStable_perm le l).mem_iff

theorem pairwise_insSorted {le : α → α → Bool}
    (htrans : ∀ x y z, le x y = true → le y z = true → le x z = true)
    (htot : ∀ x y, le x y = true ∨ le y x = true)
    (a : α) {l : List α} (h : l.Pairwise (fun x y => le x y = true)) :
    (insSorted le a l).Pairwise (fun x y => le x y = true) := by
  induction l with
  | nil => simp [insSorted]
  | cons b t ih =>
    rw [insSorted]
    rcases List.pairwise_cons.mp h with ⟨hb, ht⟩
    split
    case isTrue hab =>
      refine List.pairwise_cons.mpr ⟨?_, h⟩
      intro x hx
      rcases List.mem_cons.mp hx with rfl | hx
      · exact hab
      · exact htrans a b x hab (hb x hx)
    case isFalse hab =>
      refine List.pairwise_cons.mpr ⟨?_, ih ht⟩
      intro x hx
      rcases List.mem_cons.mp ((insSorted_perm le a t).mem_iff.mp hx) with rfl | hx
      · rcases htot x b with h1 | h1
        · exact absurd h1 hab
        · exact h1
      · exact hb x hx

theorem sortStable_pairwise {le : α → α → Bool}
    (htrans : ∀ x y z, le x y = true → le y z = true → le x z = true)
    (htot : ∀ x y, le x y = true ∨ le y x = true) (l : List α) :
    (sortStable le l).Pairwise (fun x y => le x y = true) := by
  induction l with
  | nil => simp [sortStable]
  | cons a t ih => exact pairwise_insSorted htrans htot a ih

theorem sortStable_of_sorted {le : α → α → Bool} {l : List α}
    (h : l.Pairwise (fun x y => le x y = true)) : sortStable le l = l := by
  induction l with
  | nil => rfl
  | cons a t ih =>
    rcases List.pairwise_cons.mp h with ⟨ha, ht⟩
    show insSorted le a (sortStable le t) = a :: t
    rw [ih ht]
    cases t with
    | nil => rfl
    | cons b t2 =>
      rw [insSorted, if_pos (ha b (List.mem_cons_self b t2))]

/-! ### Properties of the outline comparators -/

theorem postLE_trans (a b c : PostEntry) (h1 : postLE a b = true) (h2 : postLE b c = true) :
    postLE a c = true := by
  simp only [postLE, decide_eq_true_eq] at h1 h2 ⊢
  omega

theorem postLE_total (a b : PostEntry) : postLE a b = true ∨ postLE b a = true := by
  simp only [postLE, decide_eq_true_eq]
  omega

theorem tcandLE_trans (a b c : TCand) (h1 : tcandLE a b = true) (h2 : tcandLE b c = true) :
    tcandLE a c = true := by
  simp only [tcandLE, decide_eq_true_eq] at h1 h2 ⊢
  rcases h1 with h1 | ⟨h1, h1s⟩ <;> rcases h2 with h2 | ⟨h2, h2s⟩
  · exact Or.inl (h2.trans h1)
  · exact Or.inl (h2 ▸ h1)
  · exact Or.inl (h1 ▸ h2)
  · exact Or.inr ⟨h1.trans h2, h2s.trans h1s⟩

theorem tcandLE_total (a b : TCand) : tcandLE a b = true ∨ tcandLE b a = true := by
  simp only [tcandLE, decide_eq_true_eq]
  rcases lt_trichotomy a.confidence b.confidence with h | h | h
  · exact Or.inr (Or.inl h)
  · rcases le_total b.size a.size with hs | hs
    · exact Or.inl (Or.inr ⟨h, hs⟩)
    · exact Or.inr (Or.inr ⟨h.symm, hs⟩)
  · exact Or.inl (Or.inl h)

theorem tcandLE_refl (a : TCand) : tcandLE a a = true := by
  simp [tcandLE]

/-! ### Bounds on the scoring components -/

theorem fallbackSizeScore_bounds (s : ℚ) :
    3/10 ≤ fallbackSizeScore s ∧ fallbackSizeScore s ≤ 1 := by
  unfold fallbackSizeScore
  split <;> [skip; split <;> [skip; split]] <;> norm_num

theorem calcSizeScore_bounds (fh : Option Hier) (s : ℚ) :
    1/5 ≤ calcSizeScore fh s ∧ calcSizeScore fh s ≤ 1 := by
  have hf : 1/5 ≤ fallbackSizeScore s ∧ fallbackSizeScore s ≤ 1 :=
    ⟨le_trans (by norm_num) (fallbackSizeScore_bounds s).1, (fallbackSizeScore_bounds s).2⟩
  unfold calcSizeScore
  split
  · exact hf
  · split
    · exact hf
    · split
      · norm_num
      · split
        · norm_num
        · split
          · norm_num
          · split <;> norm_num

theorem calcPositionScore_bounds (e : Elem) :
    0 ≤ calcPositionScore e ∧ calcPositionScore e ≤ 1 := by
  unfold calcPositionScore
  split <;> split <;> split <;> norm_num

theorem calcPatternScore_bounds (lt : String) (t : List Char) :
    0 ≤ calcPatternScore lt t ∧ calcPatternScore lt t ≤ 4/5 := by
  simp only [calcPatternScore]
  split
  · norm_num
  · split
    · norm_num
    · split
      · norm_num
      · split
        · norm_num
        · split
          · norm_num
          · split <;> norm_num

theorem calcLengthScore_bounds (t : List Char) :
    1/10 ≤ calcLengthScore t ∧ calcLengthScore t ≤ 1 := by
  simp only [calcLengthScore]
  split
  · norm_num
  · split
    · norm_num
    · split <;> norm_num

theorem calcSpecialScore_bounds (e : Elem) :
    -(3/5) ≤ calcSpecialScore e ∧ calcSpecialScore e ≤ 1/2 := by
  unfold calcSpecialScore
  split <;> split <;> split <;> split <;> norm_num

/-- C1: the confidence score of any element, under any hierarchy state, lies
in the closed interval `[0, 1]`.  The weighted sum is bounded below by
`0.3·(1/5) + 0.1·(1/10) − 0.05·(3/5) = 1/25 > 0` even when both special-term
penalties apply, and the final `min … 1` caps it above. -/
theorem confidence_in_unit_interval (fh : Option Hier) (e : Elem) :
    0 ≤ calcHeadingConfidence fh e ∧ calcHeadingConfidence fh e ≤ 1 := by
  unfold calcHeadingConfidence
  constructor
  · apply le_min _ (by norm_num)
    have h1 := calcSizeScore_bounds fh e.size
    have h2 := calcPositionScore_bounds e
    have h3 := calcPatternScore_bounds e.language_type e.text
    have h4 := calcLengthScore_bounds e.text
    have h5 := calcSpecialScore_bounds e
    have h6 : (0:ℚ) ≤ if e.is_bold then 3/20 else 0 := by split <;> norm_num
    nlinarith [h1.1, h2.1, h3.1, h4.1, h5.1]
  · exact min_le_right _ _

/-! ### Properties of the deduplication pass -/

theorem dedupPass_mem {seen : List (List Char)} {l : List PostEntry} {e : PostEntry}
    (he : e ∈ dedupPass seen l) :
    ∃ h ∈ l, e = ⟨h.level, cleanText h.text, h.page⟩ ∧ 2 < (cleanText h.text).length := by
  induction l generalizing seen with
  | nil => simp [dedupPass] at he
  | cons h t ih =>
    simp only [dedupPass] at he
    split at he
    case isTrue hc =>
      rcases List.mem_cons.mp he with rfl | he
      · exact ⟨h, List.mem_cons_self h t, rfl, hc.2⟩
      · rcases ih he with ⟨h2, hm, hsh⟩
        exact ⟨h2, List.mem_cons_of_mem h hm, hsh⟩
    case isFalse hc =>
      rcases ih he with ⟨h2, hm, hsh⟩
      exact ⟨h2, List.mem_cons_of_mem h hm, hsh⟩

theorem dedupPass_notin {seen : List (List Char)} {l : List PostEntry} {e : PostEntry}
    (he : e ∈ dedupPass seen l) : lowerL e.text ∉ seen := by
  induction l generalizing seen with
  | nil => simp [dedupPass] at he
  | cons h t ih =>
    simp only [dedupPass] at he
    split at he
    case isTrue hc =>
      rcases List.mem_cons.mp he with rfl | he
      · exact hc.1
      · intro hs
        exact ih he (List.mem_cons_of_mem _ hs)
    case isFalse hc => exact ih he

theorem dedupPass_pairwise (seen : List (List Char)) (l : List PostEntry) :
    (dedupPass seen l).Pairwise (fun a b => lowerL a.text ≠ lowerL b.text) := by
  induction l generalizing seen with
  | nil => simp [dedupPass]
  | cons h t ih =>
    simp only [dedupPass]
    split
    case isTrue hc =>
      refine List.pairwise_cons.mpr ⟨?_, ih _⟩
      intro b hb heq
      exact dedupPass_notin hb (heq ▸ List.mem_cons_self _ _)
    case isFalse hc => exact ih seen

theorem dedupPass_fixed (seen : List (List Char)) (l : List PostEntry)
    (hclean : ∀ e ∈ l, cleanText e.text = e.text)
    (hlen : ∀ e ∈ l, 2 < e.text.length)
    (hseen : ∀ e ∈ l, lowerL e.text ∉ seen)
    (hpw : l.Pairwise (fun a b => lowerL a.text ≠ lowerL b.text)) :
    dedupPass seen l = l := by
  induction l generalizing seen with
  | nil => rfl
  | cons h t ih =>
    rcases List.pairwise_cons.mp hpw with ⟨hhd, htl⟩
    have hch : cleanText h.text = h.text := hclean h (List.mem_cons_self h t)
    simp only [dedupPass, hch]
    rw [if_pos ⟨hseen h (List.mem_cons_self h t), hlen h (List.mem_cons_self h t)⟩]
    have ht : dedupPass (lowerL h.text :: seen) t = t := by
      refine ih (lowerL h.text :: seen) (fun e he => hclean e (List.mem_cons_of_mem h he))
        (fun e he => hlen e (List.mem_cons_of_mem h he)) (fun e he => ?_) htl
      intro hs
      rcases List.mem_cons.mp hs with heq | hs
      · exact hhd e he heq.symm
      · exact hseen e (List.mem_cons_of_mem h he) hs
    rw [ht]

/-! ### C2 and its helpers -/

theorem postProcess_levels {hs : List PostEntry} {e : PostEntry}
    (he : e ∈ postProcessOutline hs) :
    e.level = Level.H1 ∨ e.level = Level.H2 ∨ e.level = Level.H3 := by
  unfold postProcessOutline at he
  split at he
  · simp at he
  · rcases dedupPass_mem (mem_sortStable.mp he) with ⟨h, hm, rfl, _⟩
    have := (List.mem_filter.mp hm).2
    simp only [decide_eq_true_eq] at this
    cases hl : h.level <;> simp_all

/-- C2: the outline produced by the post-processor is well-formed: no entry
keeps the title level, no two entries have case-insensitively equal cleaned
text, and the sequence is sorted by page and then by level priority. -/
theorem outline_wellformed (hs : List PostEntry) :
    (∀ e ∈ postProcessOutline hs,
        e.level = Level.H1 ∨ e.level = Level.H2 ∨ e.level = Level.H3) ∧
    (postProcessOutline hs).Pairwise (fun a b => lowerL a.text ≠ lowerL b.text) ∧
    (postProcessOutline hs).Pairwise (fun a b =>
        a.page < b.page ∨ (a.page = b.page ∧ levelPriority a.level ≤ levelPriority b.level)) := by
  refine ⟨fun e he => postProcess_levels he, ?_, ?_⟩
  · unfold postProcessOutline
    split
    · simp
    · exact ((sortStable_perm postLE _).pairwise_iff
        (fun hxy => Ne.symm hxy)).mpr (dedupPass_pairwise [] _)
  · unfold postProcessOutline
    split
    · simp
    · exact (sortStable_pairwise postLE_trans postLE_total _).imp
        (fun hab => by simpa [postLE, decide_eq_true_eq] using hab)

/-! ### C3 and its helpers -/

theorem classifyLevel_true_ne_title (fh : Hier) (c : Cand) :
    classifyHeadingLevel fh true c ≠ some Level.title := by
  unfold classifyHeadingLevel
  rw [if_neg (by simp)]
  split
  · simp
  · split
    · simp
    · split
      · simp
      · split
        · simp
        · split
          · simp
          · split <;> simp

theorem classify_title_count (fh : Hier) :
    ∀ (l : List Cand) (tf : Bool),
      (classifyHeadings fh tf l).countP (fun c => decide (c.level = Level.title)) ≤
        (if tf then 0 else 1) := by
  intro l
  induction l with
  | nil => intro tf; simp [classifyHeadings]
  | cons c cs ih =>
    intro tf
    rw [classifyHeadings]
    cases hlv : classifyHeadingLevel fh tf c with
    | none => exact ih tf
    | some lv =>
      rw [List.countP_cons]
      by_cases hl : lv = Level.title
      · subst hl
        cases tf with
        | true => exact absurd hlv (classifyLevel_true_ne_title fh c)
        | false =>
          have h0 := ih true
          rw [if_pos rfl] at h0
          have hb : (false || decide (Level.title = Level.title)) = true := by simp
          rw [hb]
          rw [if_pos (show decide ((⟨Level.title, c.el.text, c.el.page, c.confidence,
            c.el.size⟩ : Classified).level = Level.title) = true by simp)]
          show _ ≤ 1
          omega
      · have hb : (tf || decide (lv = Level.title)) = tf := by simp [hl]
        rw [hb]
        rw [if_neg (show ¬decide ((⟨lv, c.el.text, c.el.page, c.confidence,
          c.el.size⟩ : Classified).level = Level.title) = true by simp [hl])]
        simpa using ih tf

/-- C3: in any document's classification pass, at most one element receives
the title level; moreover once the title flag is set no candidate can be
classified as a title. -/
theorem at_most_one_title :
    (∀ pages : List (List Elem),
        (classifyHeadings (hierOf pages) false
            (findPotentialHeadings (hierOf pages) pages)).countP
          (fun c => decide (c.level = Level.title)) ≤ 1) ∧
    (∀ (fh : Hier) (c : Cand), classifyHeadingLevel fh true c ≠ some Level.title) := by
  constructor
  · intro pages
    simpa using classify_title_count (hierOf pages)
      (findPotentialHeadings (hierOf pages) pages) false
  · exact classifyLevel_true_ne_title

/-! ### C4: the hierarchy on noise-only input -/

/-- A one-element document whose only element is below the 8.0pt noise
threshold. -/
def smallElem : Elem := ⟨"tiny text".data, 5, 1, 100, false, false, false, false, "latin"⟩

/-- Pages for the C4 counterexample. -/
def c4pages : List (List Elem) := [[smallElem]]

/-- C4 counterexample: on an input with no qualifying element the analysis
returns the empty hierarchy dictionary, not the fixed fallback
`{title: 16, H1: 14, H2: 12, H3: 10}` the claim asserts. -/
theorem noise_only_hierarchy_not_fallback :
    hierOf c4pages = emptyHier ∧ hierOf c4pages ≠ fallbackHier := by
  have h : hierOf c4pages = emptyHier := by
    norm_num +decide [hierOf, qualifying, docElements, c4pages, smallElem]
  refine ⟨h, ?_⟩
  rw [h]
  simp [emptyHier, fallbackHier]

/-- C4 amended: when every element is below the 8.0pt threshold the analysis
returns the empty hierarchy `{}`; downstream `.get` lookups on it then
default to title 16, H1 14, H2 12, H3 10. -/
theorem noise_only_hierarchy_empty (pages : List (List Elem))
    (h : ∀ e ∈ docElements pages, e.size < 8) :
    hierOf pages = emptyHier ∧ emptyHier.getTitle = 16 ∧ emptyHier.getH1 = 14 ∧
      emptyHier.getH2 = 12 ∧ emptyHier.getH3 = 10 := by
  refine ⟨?_, rfl, rfl, rfl, rfl⟩
  unfold hierOf
  rw [if_pos]
  exact List.filter_eq_nil_iff.mpr fun e he => by
    simp only [decide_eq_true_eq, not_le]
    exact h e he

/-- C4 witness: the amended statement evaluated on the concrete noise-only
document. -/
theorem noise_only_hierarchy_empty_witness :
    hierOf c4pages = emptyHier ∧ emptyHier.getTitle = 16 ∧ emptyHier.getH1 = 14 ∧
      emptyHier.getH2 = 12 ∧ emptyHier.getH3 = 10 :=
  noise_only_hierarchy_empty c4pages (by
    intro e he
    simp only [c4pages, docElements, List.flatten, List.mem_cons, List.append_nil,
      List.not_mem_nil, or_false, List.mem_singleton] at he
    subst he
    norm_num [smallElem])

/-! ### C7: state-independence of a per-document analysis -/

/-- C7: the outline and title produced for a document do not depend on the
detector state left behind by previously analysed documents: the per-document
run always recomputes (or never reads) the hierarchy attribute. -/
theorem analysis_state_independent (st1 st2 : Option Hier) (pages : List (List Elem)) :
    (runDocument st1 pages).2 = (runDocument st2 pages).2 := by
  unfold runDocument analyzeDocumentStructure
  by_cases h : pages = []
  · subst h
    simp [findTitleSt]
  · simp [h]

/-! ### C5: totality of scoring on partial records -/

theorem calcPatternScoreP_isSome (lt : String) (t : List Char) (h : stripWS t ≠ []) :
    (calcPatternScoreP lt t).isSome = true := by
  simp only [calcPatternScoreP]
  split
  · simp
  · split
    · simp
    · split
      · simp
      · split
        · simp
        · cases htc : stripWS t with
          | nil => exact absurd htc h
          | cons c r => simp

/-- A partial element record whose `y_pos` key is missing but whose other
optional keys are all present. -/
def peNoY : PElem :=
  ⟨"Introduction".data, 14, none, some 1, some true, some true, some false,
   some false, some "latin"⟩

/-- C5 counterexample: scoring an element record without a `y_pos` key fails
(Python raises `KeyError` at `element['y_pos']` in
`_calculate_position_score`) instead of defaulting the position to 0 as the
claim asserts. -/
theorem scoring_fails_without_ypos :
    calcHeadingConfidenceP (some fallbackHier) peNoY = none := rfl

/-- C5 amended: scoring is total in the optional style flags
(`is_bold`, `is_left_aligned`, `is_centered`, `starts_with_number`) and
`language_type`, which default to false resp. `'latin'` when absent; but the
`y_pos` and `page` keys are required (a bare subscript raises `KeyError`),
and the text must not be whitespace-only (`text_clean[0]` raises
`IndexError`). -/
theorem scoring_total_with_required_fields (fh : Option Hier) (e : PElem)
    (hy : e.y_posQ.isSome = true) (hp : e.pageQ.isSome = true)
    (ht : stripWS e.text ≠ []) :
    (calcHeadingConfidenceP fh e).isSome = true := by
  obtain ⟨y, hy2⟩ := Option.isSome_iff_exists.mp hy
  obtain ⟨p, hp2⟩ := Option.isSome_iff_exists.mp hp
  have h1 : (calcPositionScoreP e).isSome = true := by
    unfold calcPositionScoreP
    rw [hy2]
    simp
  have h2 : (calcPatternScoreP (e.language_typeQ.getD "latin") e.text).isSome = true :=
    calcPatternScoreP_isSome _ _ ht
  have h3 : (calcSpecialScoreP e).isSome = true := by
    unfold calcSpecialScoreP
    rw [hp2]
    simp
  obtain ⟨a, ha⟩ := Option.isSome_iff_exists.mp h1
  obtain ⟨b, hb⟩ := Option.isSome_iff_exists.mp h2
  obtain ⟨c, hc⟩ := Option.isSome_iff_exists.mp h3
  unfold calcHeadingConfidenceP
  rw [ha, hb, hc]
  simp

/-- A partial element record with every optional style flag and the language
type absent, but with `y_pos` and `page` present. -/
def peFlagsAbsent : PElem :=
  ⟨"Hello World".data, 14, some 100, some 1, none, none, none, none, none⟩

/-- C5 witness: the amended statement evaluated on a record whose style
flags are all missing. -/
theorem scoring_total_with_required_fields_witness :
    (calcHeadingConfidenceP (some fallbackHier) peFlagsAbsent).isSome = true :=
  scoring_total_with_required_fields (some fallbackHier) peFlagsAbsent rfl rfl (by decide)

/-! ### C8: the remaining-level assignment -/

theorem makeClusters_ne_nil {pages : List (List Elem)} (h : qualifying pages ≠ []) :
    makeClusters pages ≠ [] := by
  have h1 : ((qualifying pages).map (·.size)) ≠ [] := by
    simpa using h
  have h2 : dedupFirst ((qualifying pages).map (·.size)) ≠ [] := by
    cases hq : (qualifying pages).map (·.size) with
    | nil => exact absurd hq h1
    | cons a t => simp [dedupFirst]
  have h3 : uniqueSizesDesc pages ≠ [] := by
    unfold uniqueSizesDesc
    intro hx
    apply h2
    have hl := (sortStable_perm (fun a b => decide (b ≤ a))
      (dedupFirst ((qualifying pages).map (·.size)))).length_eq
    rw [hx] at hl
    exact List.length_eq_zero.mp hl.symm
  unfold makeClusters
  intro hx
  apply h3
  simp only at hx
  exact List.enum_eq_nil.mp (List.map_eq_nil_iff.mp hx)

/-- C8 amended: after the title size is chosen, the remaining sizes are
assigned to H1, H2, H3 in the order of the importance-sorted cluster list
(descending importance, not descending size rank), with the synthesis rules
for fewer than three remaining sizes exactly as claimed. -/
theorem remaining_levels_by_importance (pages : List (List Elem))
    (h : qualifying pages ≠ []) :
    (∀ r0 r1 r2 rest, remainingSizes pages = r0 :: r1 :: r2 :: rest →
        hierOf pages = ⟨some (titleSizeOf pages), some r0, some r1, some r2⟩) ∧
    (∀ r0 r1, remainingSizes pages = [r0, r1] →
        hierOf pages = ⟨some (titleSizeOf pages), some r0, some r1, some (r1 - 1)⟩) ∧
    (∀ r0, remainingSizes pages = [r0] →
        hierOf pages = ⟨some (titleSizeOf pages), some r0, some (r0 - 1), some (r0 - 2)⟩) ∧
    (remainingSizes pages = [] →
        hierOf pages = ⟨some (titleSizeOf pages), some (titleSizeOf pages - 2),
          some (titleSizeOf pages - 2 - 1), some (titleSizeOf pages - 2 - 2)⟩) := by
  have hb : hierOf pages = buildHierarchy pages := by
    unfold hierOf
    rw [if_neg h]
  refine ⟨?_, ?_, ?_, ?_⟩
  · intro r0 r1 r2 rest hr
    rw [hb]
    unfold buildHierarchy
    rw [if_neg (makeClusters_ne_nil h), hr]
  · intro r0 r1 hr
    rw [hb]
    unfold buildHierarchy
    rw [if_neg (makeClusters_ne_nil h), hr]
  · intro r0 hr
    rw [hb]
    unfold buildHierarchy
    rw [if_neg (makeClusters_ne_nil h), hr]
  · intro hr
    rw [hb]
    unfold buildHierarchy
    rw [if_neg (makeClusters_ne_nil h), hr]

/-- Element of size 12pt on page 1 (rare, early). -/
def c8e1 : Elem := ⟨"Alpha heading".data, 12, 1, 100, false, false, false, false, "latin"⟩

/-- Element of size 11.9pt on page 3 (rare, late). -/
def c8e2 : Elem := ⟨"Beta heading".data, 119/10, 3, 100, false, false, false, false, "latin"⟩

/-- First element of size 11.8pt on page 3 (frequent, late). -/
def c8e3 : Elem := ⟨"Gamma heading".data, 59/5, 3, 100, false, false, false, false, "latin"⟩

/-- Second element of size 11.8pt on page 3. -/
def c8e4 : Elem := ⟨"Delta heading".data, 59/5, 3, 200, false, false, false, false, "latin"⟩

/-- A document whose frequent 11.8pt size has higher importance than the
rarer but larger 11.9pt size. -/
def c8pages : List (List Elem) := [[c8e1], [], [c8e2, c8e3, c8e4]]

/-- C8 counterexample: the title size is 12, and the remaining sizes are
taken in descending importance order `[11.8, 11.9]`, so H1 = 11.8 < H2 =
11.9 — not the descending rank (size) order `[11.9, 11.8]` the claim
asserts. -/
theorem remaining_levels_not_rank_order :
    remainingSizes c8pages = [59/5, 119/10] ∧
    (hierOf c8pages).getH1 = 59/5 ∧ (hierOf c8pages).getH2 = 119/10 ∧
    (hierOf c8pages).getH1 < (hierOf c8pages).getH2 := by
  have hh : hierOf c8pages = ⟨some 12, some (59/5), some (119/10), some (119/10 - 1)⟩ := by
    norm_num +decide [hierOf, buildHierarchy, remainingSizes, sortedClusters, makeClusters,
      uniqueSizesDesc, dedupFirst, sortStable, insSorted, countSize, totalCount, maxOfSizes,
      titleSizeOf, earlyCount, qualifying, docElements, c8pages, c8e1, c8e2, c8e3, c8e4,
      List.countP, List.countP.go, List.filterMap, List.filter, List.enum, List.enumFrom,
      List.foldl, List.foldr, List.map, List.take, List.headD, List.flatten]
  refine ⟨?_, ?_, ?_, ?_⟩
  · norm_num +decide [remainingSizes, sortedClusters, makeClusters, uniqueSizesDesc,
      dedupFirst, sortStable, insSorted, countSize, totalCount, maxOfSizes,
      titleSizeOf, earlyCount, qualifying, docElements, c8pages, c8e1, c8e2, c8e3, c8e4,
      List.countP, List.countP.go, List.filterMap, List.filter, List.enum, List.enumFrom,
      List.foldl, List.foldr, List.map, List.take, List.headD, List.flatten]
  · rw [hh]; norm_num [Hier.getH1]
  · rw [hh]; norm_num [Hier.getH2]
  · rw [hh]; norm_num [Hier.getH1, Hier.getH2]

/-- A one-size document for the C8 witness: the single size 20 becomes the
title and no size remains. -/
def c8wpages : List (List Elem) :=
  [[⟨"Quarterly Report".data, 20, 1, 80, false, false, false, false, "latin"⟩]]

/-- C8 witness: the amended statement applied to a document with no
remaining sizes, which takes the zero-remaining synthesis branch. -/
theorem remaining_levels_by_importance_witness :
    hierOf c8wpages = ⟨some (titleSizeOf c8wpages), some (titleSizeOf c8wpages - 2),
      some (titleSizeOf c8wpages - 2 - 1), some (titleSizeOf c8wpages - 2 - 2)⟩ := by
  have h1 : qualifying c8wpages ≠ [] := by
    norm_num +decide [qualifying, docElements, c8wpages]
  have h2 : remainingSizes c8wpages = [] := by
    norm_num +decide [remainingSizes, sortedClusters, makeClusters, uniqueSizesDesc,
      dedupFirst, sortStable, insSorted, countSize, totalCount, maxOfSizes,
      titleSizeOf, earlyCount, qualifying, docElements, c8wpages,
      List.countP, List.countP.go, List.filterMap, List.filter, List.enum, List.enumFrom,
      List.foldl, List.foldr, List.map, List.take, List.headD, List.flatten]
  exact (remaining_levels_by_importance c8wpages h1).2.2.2 h2

/-! ### C6: title resolution -/

/-- C6 amended: the resolver returns the placeholder for a document with no
elements; when the pages-1-2 candidate collection is non-empty it returns
the cleaned text of a candidate maximising `(confidence, size)`; when it is
empty it falls back to the cleaned text of the first largest element of page
1.  (The placeholder is however not returned *only* on element-free
documents — see the counterexample.) -/
theorem title_resolution_cases (fh : Hier) (pages : List (List Elem)) :
    (docElements pages = [] → findTitleSt (some fh) pages = some untitled) ∧
    (∀ tcs, collectTitleCands (some fh) ((pages.take 2).flatten) = some tcs → tcs ≠ [] →
      ∃ best ∈ tcs, findTitleSt (some fh) pages = some (cleanText best.text) ∧
        ∀ c ∈ tcs, c.confidence < best.confidence ∨
          (best.confidence = c.confidence ∧ c.size ≤ best.size)) ∧
    (collectTitleCands (some fh) ((pages.take 2).flatten) = some [] →
      ∀ e es, pages.headD [] = e :: es →
        findTitleSt (some fh) pages = some (cleanText (firstMaxBySize e es).text)) := by
  refine ⟨?_, ?_, ?_⟩
  · intro hj
    unfold findTitleSt
    by_cases hp : pages = []
    · rw [if_pos hp]
    · rw [if_neg hp]
      have hall := List.flatten_eq_nil_iff.mp hj
      have h2 : (pages.take 2).flatten = [] :=
        List.flatten_eq_nil_iff.mpr (fun l hl => hall l (List.mem_of_mem_take hl))
      rw [h2]
      cases hpd : pages with
      | nil => exact absurd hpd hp
      | cons p rest =>
        have hpnil : p = [] := hall p (hpd ▸ List.mem_cons_self p rest)
        simp [collectTitleCands, sortStable, List.headD, hpnil]
  · intro tcs hc hne
    by_cases hp : pages = []
    · rw [hp] at hc
      simp only [List.take_nil, List.flatten_nil, collectTitleCands, Option.some.injEq] at hc
      exact absurd hc.symm hne
    · cases hs : sortStable tcandLE tcs with
      | nil =>
        exfalso
        apply hne
        have hl := (sortStable_perm tcandLE tcs).length_eq
        rw [hs] at hl
        exact List.length_eq_zero.mp hl.symm
      | cons best rest =>
        have heq : findTitleSt (some fh) pages = some (cleanText best.text) := by
          unfold findTitleSt
          rw [if_neg hp, hc]
          show (match sortStable tcandLE tcs with
                | b :: _ => some (cleanText b.text)
                | [] =>
                  match pages.headD [] with
                  | [] => some untitled
                  | e :: es => some (cleanText (firstMaxBySize e es).text)) =
              some (cleanText best.text)
          rw [hs]
        refine ⟨best, mem_sortStable.mp (hs ▸ List.mem_cons_self best rest), heq, ?_⟩
        intro c hcm
        have hpw := sortStable_pairwise tcandLE_trans tcandLE_total tcs
        rw [hs] at hpw
        have hle : tcandLE best c = true := by
          rcases List.mem_cons.mp (hs ▸ mem_sortStable.mpr hcm) with rfl | hcm2
          · exact tcandLE_refl c
          · exact (List.pairwise_cons.mp hpw).1 c hcm2
        simpa [tcandLE, decide_eq_true_eq] using hle
  · intro hc e es hh
    have hp : pages ≠ [] := by
      intro hx
      rw [hx] at hh
      simp [List.headD] at hh
    unfold findTitleSt
    rw [if_neg hp, hc]
    simp only [sortStable, List.foldr, hh]

/-- A low-confidence body-text element on page 2. -/
def c6elem : Elem := ⟨"lorem ipsum dolor.".data, 9, 2, 500, false, false, false, false, "latin"⟩

/-- A document with an empty first page and one non-qualifying element, used
to refute the "exactly when the document has no elements" part of C6. -/
def c6pages : List (List Elem) := [[], [c6elem]]

/-- C6 counterexample: the resolver returns the placeholder
`"Untitled Document"` for a document that does have elements — its only
element has confidence 0.41 < 0.6 so no candidate qualifies, and page 1 is
empty, so the fallback also produces the placeholder. -/
theorem untitled_despite_elements :
    findTitleSt (some (hierOf c6pages)) c6pages = some untitled ∧
      docElements c6pages ≠ [] := by
  constructor
  · have hstr : stripWS "lorem ipsum dolor.".data = "lorem ipsum dolor.".data := by decide
    norm_num +decide [hstr, findTitleSt, collectTitleCands, c6pages, c6elem, hierOf, qualifying,
      docElements, buildHierarchy, makeClusters, uniqueSizesDesc, dedupFirst, sortStable,
      insSorted, countSize, totalCount, maxOfSizes, remainingSizes, sortedClusters,
      titleSizeOf, earlyCount, calcHeadingConfidence, calcSizeScore, calcPositionScore,
      calcPatternScore, calcLengthScore, calcSpecialScore, countWords, countWordsAux,
      Hier.isEmptyH, Hier.getTitle, Hier.getH1, Hier.getH2, Hier.getH3,
      List.countP, List.countP.go, List.filterMap, List.filter, List.enum, List.enumFrom,
      List.foldl, List.foldr, List.map, List.take, List.headD, List.flatten]
  · decide

/-- A small page-1 element for the C6 witness. -/
def c6wa : Elem := ⟨"alpha".data, 10, 1, 500, false, false, false, false, "latin"⟩

/-- A larger page-1 element for the C6 witness. -/
def c6wb : Elem := ⟨"beta mountain".data, 12, 1, 500, false, false, false, false, "latin"⟩

/-- A document whose two page-1 elements are below the candidate thresholds. -/
def c6wpages : List (List Elem) := [[c6wa, c6wb]]

/-- C6 witness: the amended statement applied to a document with no
qualifying candidate, taking the largest-element-of-page-1 fallback. -/
theorem title_resolution_cases_witness :
    findTitleSt (some fallbackHier) c6wpages =
      some (cleanText (firstMaxBySize c6wa [c6wb]).text) := by
  have h2 : collectTitleCands (some fallbackHier) ((c6wpages.take 2).flatten) = some [] := by
    have hstr1 : stripWS "alpha".data = "alpha".data := by decide
    have hstr2 : stripWS "beta mountain".data = "beta mountain".data := by decide
    norm_num +decide [hstr1, hstr2, collectTitleCands, c6wpages, c6wa, c6wb,
      calcHeadingConfidence, calcSizeScore, calcPositionScore,
      calcPatternScore, calcLengthScore, calcSpecialScore, countWords, countWordsAux,
      fallbackHier, Hier.isEmptyH, Hier.getTitle, Hier.getH1, Hier.getH2, Hier.getH3,
      List.take, List.flatten]
  exact (title_resolution_cases fallbackHier c6wpages).2.2 h2 c6wa [c6wb] rfl

/-! ### C10: the resolver can return the empty string -/

/-- A large bold numeral-only element on page 1. -/
def c10elem : Elem := ⟨"2025".data, 20, 1, 50, true, true, false, false, "latin"⟩

/-- A document whose winning title candidate has digits-only text. -/
def c10pages : List (List Elem) := [[c10elem]]

/-- C10: on a document whose best title candidate is the large bold "2025"
on page 1 (confidence 0.67), the cleaning step strips every character and
the empty string is returned as the title; the `"Untitled Document"`
placeholder is not substituted. -/
theorem empty_string_title_possible :
    (runDocument none c10pages).2.2 = some [] ∧
      some ([] : List Char) ≠ some untitled := by
  constructor
  · have hstrip : stripWS "2025".data = "2025".data := by decide
    have hclean : cleanText "2025".data = [] := by decide
    norm_num +decide [runDocument, analyzeDocumentStructure, findTitleSt, c10pages, c10elem,
      hierOf, qualifying, docElements, buildHierarchy,
      makeClusters, uniqueSizesDesc, dedupFirst, sortStable, insSorted, countSize,
      totalCount, maxOfSizes, remainingSizes, sortedClusters, titleSizeOf, earlyCount,
      List.countP, List.countP.go, List.filterMap, List.filter, List.enum, List.enumFrom,
      List.foldl, List.foldr, List.map, List.take, List.headD, List.flatten,
      collectTitleCands, calcHeadingConfidence, calcSizeScore, calcPositionScore,
      calcPatternScore, calcLengthScore, calcSpecialScore, countWords,
      countWordsAux, Hier.isEmptyH, Hier.getTitle, Hier.getH1, Hier.getH2, Hier.getH3,
      tcandLE, firstMaxBySize, hstrip, hclean]
  · decide

/-! ### C9: idempotence of the post-processor -/

/-- An entry whose text has a punctuation character followed by whitespace:
cleaning it yields `"Ab@"`, and cleaning that again yields `"Ab"`. -/
def c9entry : PostEntry := ⟨Level.H1, "ab@ ".data, 1⟩

/-- C9 counterexample: the post-processor is not idempotent.  On the input
`[⟨H1, "ab@ ", 1⟩]` the first pass outputs `[⟨H1, "Ab@", 1⟩]` (the trailing
`@` survives because it is followed by whitespace when the trailing-
punctuation strip runs); the second pass strips the now-final `@`, leaving
`"Ab"` of length 2, which the length filter discards — the output becomes
empty. -/
theorem postProcess_not_idempotent :
    postProcessOutline (postProcessOutline [c9entry]) ≠
      postProcessOutline [c9entry] := by
  decide

/-- C9 amended: the post-processor is idempotent on every input whose texts
clean stably (a second application of the text cleaner changes nothing) — in
particular the cleaning, length filter, deduplication and sort are then all
no-ops on its own output.  On general inputs a second application can
differ, because the text cleaner itself is not idempotent. -/
theorem postProcess_idempotent_of_stable (hs : List PostEntry)
    (hidem : ∀ h ∈ hs, cleanText (cleanText h.text) = cleanText h.text) :
    postProcessOutline (postProcessOutline hs) = postProcessOutline hs := by
  by_cases h0 : hs = []
  · subst h0
    rfl
  · have hout : postProcessOutline hs =
        sortStable postLE (dedupPass []
          (hs.filter (fun h => decide (h.level ≠ Level.title)))) := by
      unfold postProcessOutline
      rw [if_neg h0]
    have hshape : ∀ e ∈ postProcessOutline hs,
        cleanText e.text = e.text ∧ 2 < e.text.length := by
      intro e he
      rw [hout] at he
      rcases dedupPass_mem (mem_sortStable.mp he) with ⟨h, hm, rfl, hlen⟩
      have hmem : h ∈ hs := (List.mem_filter.mp hm).1
      exact ⟨hidem h hmem, hlen⟩
    have hlv : ∀ e ∈ postProcessOutline hs, e.level ≠ Level.title := by
      intro e he
      rcases postProcess_levels he with h1 | h1 | h1 <;> simp [h1]
    have hpw : (postProcessOutline hs).Pairwise
        (fun a b => lowerL a.text ≠ lowerL b.text) := by
      rw [hout]
      exact ((sortStable_perm postLE _).pairwise_iff
        (fun hxy => Ne.symm hxy)).mpr (dedupPass_pairwise [] _)
    have hsorted : (postProcessOutline hs).Pairwise
        (fun a b => postLE a b = true) := by
      rw [hout]
      exact sortStable_pairwise postLE_trans postLE_total _
    have hP : ∀ l : List PostEntry, l ≠ [] → postProcessOutline l =
        sortStable postLE (dedupPass []
          (l.filter (fun h => decide (h.level ≠ Level.title)))) := by
      intro l hl
      unfold postProcessOutline
      rw [if_neg hl]
    by_cases hoe : postProcessOutline hs = []
    · rw [hoe]
      rfl
    · rw [hP (postProcessOutline hs) hoe]
      have hfil : (postProcessOutline hs).filter
          (fun h => decide (h.level ≠ Level.title)) = postProcessOutline hs :=
        List.filter_eq_self.mpr (fun e he => decide_eq_true (hlv e he))
      rw [hfil]
      have hded : dedupPass [] (postProcessOutline hs) = postProcessOutline hs :=
        dedupPass_fixed [] _ (fun e he => (hshape e he).1)
          (fun e he => (hshape e he).2)
          (fun e _ hx => (List.not_mem_nil (lowerL e.text)) hx) hpw
      rw [hded]
      exact sortStable_of_sorted hsorted

/-- An entry whose cleaned text is already stable under cleaning. -/
def c9wentry : PostEntry := ⟨Level.H1, "Introduction".data, 1⟩

/-- C9 witness: the amended statement evaluated on a concrete stable input. -/
theorem postProcess_idempotent_of_stable_witness :
    postProcessOutline (postProcessOutline [c9wentry]) =
      postProcessOutline [c9wentry] :=
  postProcess_idempotent_of_stable [c9wentry] (by decide)
